import Mathlib

/-!
# Verification of the eTOXlab PLS engine (`pls.py`)

Shallow embedding of the NIPALS-based PLS class of `src/pls.py`: model
fitting (`build`), single-LV extraction (`extractLV`), deflation
(`deflateLV`), sum-of-squares bookkeeping (`computeSS`), projection of a
new observation (`project`), leave-one-out cross-validation
(`validateLOO` / `getLOO`), and the fixed-order binary serialization
(`saveModel` / `loadModel`).

Conventions of the embedding:
* numpy float64 arithmetic is embedded as exact real arithmetic on `ℝ`;
  a numpy vector is a `List ℝ`, a matrix a list of rows `List (List ℝ)`.
* Lean's total division returns 0 on a zero divisor where IEEE arithmetic
  would produce NaN/Inf; the degenerate cases are flagged where relevant.
* Python in-place mutation (numpy `-=` on arrays) is embedded by explicit
  value passing: a procedure that mutates a caller buffer returns the
  buffer's final contents alongside its result.
* `np.save`/`np.load` streams are embedded as lists of tagged values
  (`NpVal`); a load that would raise in Python returns `none`.
-/

namespace PLS

noncomputable section

/-- Dot product of two numpy vectors (`np.dot`); truncates at the shorter
length, matching use sites where lengths agree. -/
def dot (a b : List ℝ) : ℝ := (List.zipWith (fun x y => x * y) a b).sum

/-- Elementwise difference of two vectors (numpy `-` on arrays). -/
def vsub (a b : List ℝ) : List ℝ := List.zipWith (fun x y => x - y) a b

/-- Scalar times vector (numpy scalar broadcasting). -/
def smul (k : ℝ) (v : List ℝ) : List ℝ := v.map (fun x => k * x)

/-- Column `j` of a row-major matrix (`X[:,j]`). -/
def col (X : List (List ℝ)) (j : ℕ) : List ℝ := X.map (fun r => r.getD j 0)

/-- `np.mean` of a vector (0 on the empty vector, where numpy yields NaN). -/
def mean (v : List ℝ) : ℝ := v.sum / (v.length : ℝ)

/-- Number of columns, read off the first row as `np.shape` does. -/
def ncols (X : List (List ℝ)) : ℕ := (X.headD []).length

/-- `pls.center` applied to a vector argument: returns `X - mu, mu`. -/
def centerVec (v : List ℝ) : List ℝ × ℝ :=
  (v.map (fun x => x - mean v), mean v)

/-- `pls.center` applied to a matrix argument: per-column means
(`np.mean(X, axis=0)`) subtracted from every row. -/
def centerMat (X : List (List ℝ)) : List (List ℝ) × List ℝ :=
  let mu := (List.range (ncols X)).map (fun j => mean (col X j))
  (X.map (fun r => vsub r mu), mu)

/-- `pls.computeSS`: sum of squares of X, of Y, and the per-row SSX vector. -/
def computeSS (X : List (List ℝ)) (Y : List ℝ) : ℝ × ℝ × List ℝ :=
  ((X.map (fun r => dot r r)).sum,
   (Y.map (fun y => y ^ 2)).sum,
   X.map (fun r => dot r r))

/-- `pls.extractLV`: single-LV NIPALS extraction from centered `X`, `Y`.
Returns `(t, p, w, c)`. Divisions by `Y·Y` and `t·t` are the source's;
on a zero divisor the embedding yields 0 where numpy yields NaN. -/
def extractLV (X : List (List ℝ)) (Y : List ℝ) : List ℝ × List ℝ × List ℝ × ℝ :=
  let nvarx := ncols X
  let uu := dot Y Y
  let w0 := (List.range nvarx).map (fun j => dot Y (col X j) / uu)
  let ww := Real.sqrt (dot w0 w0)
  let w := w0.map (fun x => x / ww)
  let t := X.map (fun r => dot w r)
  let tt := dot t t
  let p := (List.range nvarx).map (fun j => dot t (col X j) / tt)
  let c := dot t Y / tt
  (t, p, w, c)

/-- `pls.deflateLV`: subtract the rank-one reconstruction from X and Y. -/
def deflateLV (X : List (List ℝ)) (Y : List ℝ) (t p : List ℝ) (c : ℝ) :
    List (List ℝ) × List ℝ :=
  (List.zipWith (fun r ti => vsub r (smul ti p)) X t,
   List.zipWith (fun yi ti => yi - ti * c) Y t)

/-- The `pls` object state: every attribute set by `__init__`, with numpy
`None` for the training data embedded as `Option`. `mux`/`muy` start as
the empty vector / 0 (Python `None`; only read after `build`). -/
structure Model where
  X : Option (List (List ℝ))
  Y : Option (List ℝ)
  Am : ℕ
  Av : ℕ
  nobj : ℕ
  nvarx : ℕ
  mux : List ℝ
  muy : ℝ
  t : List (List ℝ)
  p : List (List ℝ)
  w : List (List ℝ)
  c : List ℝ
  SSXex : List ℝ
  SSXac : List ℝ
  SSYex : List ℝ
  SSYac : List ℝ
  SDEC : List ℝ
  dmodx : List (List ℝ)
  SSY : List ℝ
  SDEP : List ℝ
  Q2 : List ℝ

/-- `pls.__init__`: the freshly constructed object. -/
def plsInit : Model :=
  { X := none, Y := none, Am := 0, Av := 0, nobj := 0, nvarx := 0,
    mux := [], muy := 0,
    t := [], p := [], w := [], c := [],
    SSXex := [], SSXac := [], SSYex := [], SSYac := [], SDEC := [], dmodx := [],
    SSY := [], SDEP := [], Q2 := [] }

/-- Loop state of `pls.build`: the deflated working copies, the running
sum-of-squares bookkeeping, the fixed denominators `SSX0`/`SSY0`, the
shape, the LV counter `a`, and the model accumulating the per-LV arrays. -/
structure BuildState where
  Xc : List (List ℝ)
  Yc : List ℝ
  SSX0 : ℝ
  SSY0 : ℝ
  SSXold : ℝ
  SSYold : ℝ
  SSXacc : ℝ
  SSYacc : ℝ
  nobjL : ℕ
  nvarxL : ℕ
  a : ℕ
  m : Model

/-- One iteration of the `while True` loop body of `pls.build`. -/
def buildStep (s : BuildState) : BuildState :=
  let e := extractLV s.Xc s.Yc
  let t := e.1
  let p := e.2.1
  let w := e.2.2.1
  let c := e.2.2.2
  let d := deflateLV s.Xc s.Yc t p c
  let ss := computeSS d.1 d.2
  let SSXnew := ss.1
  let SSYnew := ss.2.1
  let dmodx0 := ss.2.2
  let SSXex := (s.SSXold - SSXnew) / s.SSX0
  let SSXacc := s.SSXacc + SSXex
  let SSYex := (s.SSYold - SSYnew) / s.SSY0
  let SSYacc := s.SSYacc + SSYex
  let SDEC := Real.sqrt (SSYnew / (s.nobjL : ℝ))
  let dof : ℕ := if s.nvarxL ≤ s.a then 1 else s.nvarxL - s.a
  let dmodx := dmodx0.map (fun x => Real.sqrt (x / (dof : ℝ)))
  { Xc := d.1, Yc := d.2,
    SSX0 := s.SSX0, SSY0 := s.SSY0,
    SSXold := SSXnew, SSYold := SSYnew,
    SSXacc := SSXacc, SSYacc := SSYacc,
    nobjL := s.nobjL, nvarxL := s.nvarxL,
    a := s.a + 1,
    m := { s.m with
      t := s.m.t ++ [t], p := s.m.p ++ [p], w := s.m.w ++ [w],
      c := s.m.c ++ [c],
      SSXex := s.m.SSXex ++ [SSXex], SSXac := s.m.SSXac ++ [SSXacc],
      SSYex := s.m.SSYex ++ [SSYex], SSYac := s.m.SSYac ++ [SSYacc],
      SDEC := s.m.SDEC ++ [SDEC], dmodx := s.m.dmodx ++ [dmodx] } }

/-- The `while True` loop of `pls.build`, with the requested LV count as
fuel: with `targetA > 0` the Python loop runs at most `targetA` bodies
(breaking when `a == targetA`), breaking earlier when the `targetSSX`
criterion fires. (`targetA = 0` with `targetSSX > 0` would make the
Python loop's length data-dependent and is outside the claims.) -/
def buildLoop (targetSSX : ℝ) : BuildState → ℕ → BuildState
  | s, 0 => s
  | s, fuel + 1 =>
    let s2 := buildStep s
    if 0 < targetSSX ∧ targetSSX < s2.SSXacc then s2
    else buildLoop targetSSX s2 fuel

/-- `pls.build`: centers X and Y, records the means and shape, stores the
original (uncentered) data in `self.X`/`self.Y`, runs the NIPALS loop and
sets `Am` to the number of LVs extracted. -/
def build (m : Model) (X : List (List ℝ)) (Y : List ℝ) (targetA : ℕ)
    (targetSSX : ℝ) : Model :=
  let nobj := X.length
  let nvarx := ncols X
  let cX := centerMat X
  let cY := centerVec Y
  let ss0 := computeSS cX.1 cY.1
  let s0 : BuildState :=
    { Xc := cX.1, Yc := cY.1,
      SSX0 := ss0.1, SSY0 := ss0.2.1,
      SSXold := ss0.1, SSYold := ss0.2.1,
      SSXacc := 0, SSYacc := 0,
      nobjL := nobj, nvarxL := nvarx, a := 0,
      m := { m with X := some X, Y := some Y, nobj := nobj, nvarx := nvarx,
                    mux := cX.2, muy := cY.2 } }
  let s := buildLoop targetSSX s0 targetA
  { s.m with Am := s.a }

/-- Loop of `pls.project`: starting at LV index `a` with `k` LVs left to
process and current (already centered, partially deflated) buffer `x`,
returns the `y`, `t`, `d` segments and the final buffer contents. -/
def projectLoop (m : Model) : List ℝ → ℕ → ℕ → List ℝ × List ℝ × List ℝ × List ℝ
  | x, _, 0 => ([], [], [], x)
  | x, a, k + 1 =>
    let ta := dot x (m.w.getD a [])
    let ya := ta * m.c.getD a 0
    let x2 := vsub x (smul ta (m.p.getD a []))
    let dof : ℕ := if m.nvarx ≤ a then 1 else m.nvarx - a
    let da := Real.sqrt (dot x2 x2 / (dof : ℝ))
    let r := projectLoop m x2 (a + 1) k
    (ya :: r.1, ta :: r.2.1, da :: r.2.2.1, r.2.2.2)

/-- `pls.project`: projects a query vector using `A` LVs. The first
component is the Python return value (`(False, 'Too many LV')` embedded
as `Except.error`, `(True, (y, t, d))` as `Except.ok`); the second is the
final contents of the caller's buffer `x`, mutated in place by the
Python code on the success path only. -/
def project (m : Model) (x : List ℝ) (A : ℕ) :
    Except String (List ℝ × List ℝ × List ℝ) × List ℝ :=
  if m.Am < A then (Except.error ("Too many LV"), x)
  else
    let x0 := vsub x m.mux
    let r := projectLoop m x0 0 A
    (Except.ok (r.1.map (fun v => v + m.muy), r.2.1, r.2.2.1), r.2.2.2)

/-- Loop of `pls.getLOO`: carries the previous LV's accumulated
prediction (`if a>0 : y[a]=y[a-1]`), the deflating working matrices and
the deflating query vector. -/
def getLOOLoop : List (List ℝ) → List ℝ → List ℝ → ℝ → ℕ → List ℝ
  | _, _, _, _, 0 => []
  | X, Y, x, yprev, k + 1 =>
    let e := extractLV X Y
    let t := e.1
    let p := e.2.1
    let w := e.2.2.1
    let c := e.2.2.2
    let tt := dot x w
    let ya := yprev + tt * c
    let x2 := vsub x (smul tt p)
    let d := deflateLV X Y t p c
    ya :: getLOOLoop d.1 d.2 x2 ya k

/-- `pls.getLOO`: fits `A` LVs on centered `X`, `Y` and returns the
cumulative predictions for the centered query `x` at LV counts `1..A`. -/
def getLOO (X : List (List ℝ)) (Y : List ℝ) (x : List ℝ) (A : ℕ) : List ℝ :=
  getLOOLoop X Y x 0 A

/-- `pls.validateLOO`: leave-one-out cross-validation of `A` LVs. A no-op
when no training data is stored; otherwise refits on each reduced data
set, accumulates squared prediction errors per LV count, and stores
`SSY`, `SDEP`, `Q2` and `Av := A`. -/
def validateLOO (m : Model) (A : ℕ) : Model :=
  match m.X, m.Y with
  | some X, some Y =>
    let nobj := X.length
    let SSY0 := ((List.range nobj).map (fun i => (Y.getD i 0 - mean Y) ^ 2)).sum
    let SSY := (List.range nobj).foldl (fun acc i =>
        let Xr := X.eraseIdx i
        let Yr := Y.eraseIdx i
        let cXr := centerMat Xr
        let cYr := centerVec Yr
        let xp := vsub (X.getD i []) cXr.2
        let yp := (getLOO cXr.1 cYr.1 xp A).map (fun v => v + cYr.2)
        List.zipWith (fun sacc v => sacc + (v - Y.getD i 0) ^ 2) acc yp)
      (List.replicate A (0 : ℝ))
    { m with SSY := SSY,
             SDEP := SSY.map (fun v => Real.sqrt (v / (nobj : ℝ))),
             Q2 := SSY.map (fun v => 1 - v / SSY0),
             Av := A }
  | _, _ => m

/-- One value of the `np.save`/`np.load` stream: a stored integer scalar,
float scalar, or float vector. -/
inductive NpVal
  | nat (k : ℕ)
  | real (x : ℝ)
  | vec (v : List ℝ)

/-- The ten per-LV artifacts written for LV index `a` by `pls.saveModel`. -/
def lvBlock (m : Model) (a : ℕ) : List NpVal :=
  [NpVal.vec (m.t.getD a []), NpVal.vec (m.p.getD a []),
   NpVal.vec (m.w.getD a []), NpVal.real (m.c.getD a 0),
   NpVal.real (m.SSXex.getD a 0), NpVal.real (m.SSXac.getD a 0),
   NpVal.real (m.SSYex.getD a 0), NpVal.real (m.SSYac.getD a 0),
   NpVal.real (m.SDEC.getD a 0), NpVal.vec (m.dmodx.getD a [])]

/-- The three CV statistics written for validated LV index `a`. -/
def cvBlock (m : Model) (a : ℕ) : List NpVal :=
  [NpVal.real (m.SSY.getD a 0), NpVal.real (m.SDEP.getD a 0),
   NpVal.real (m.Q2.getD a 0)]

/-- `pls.saveModel`: the fixed-order stream — scalar header, mean
vectors, `Am` per-LV blocks, `Av` CV blocks. -/
def saveModel (m : Model) : List NpVal :=
  [NpVal.nat m.Am, NpVal.nat m.Av, NpVal.nat m.nobj, NpVal.nat m.nvarx,
   NpVal.vec m.mux, NpVal.real m.muy]
  ++ ((List.range m.Am).map (lvBlock m)).flatten
  ++ ((List.range m.Av).map (cvBlock m)).flatten

/-- Read one integer scalar from the stream (`np.load`); a type mismatch
or exhausted stream raises in Python, embedded as `none`. -/
def readNat : List NpVal → Option (ℕ × List NpVal)
  | NpVal.nat k :: rest => some (k, rest)
  | _ => none

/-- Read one float scalar from the stream. -/
def readReal : List NpVal → Option (ℝ × List NpVal)
  | NpVal.real x :: rest => some (x, rest)
  | _ => none

/-- Read one float vector from the stream. -/
def readVec : List NpVal → Option (List ℝ × List NpVal)
  | NpVal.vec v :: rest => some (v, rest)
  | _ => none

/-- The `for a in range(self.Am)` loop of `pls.loadModel`: reads one
ten-value block per LV and appends each artifact to its list. -/
def loadLVs : ℕ → Model → List NpVal → Option (Model × List NpVal)
  | 0, m, s => some (m, s)
  | k + 1, m, s => do
    let (tv, s) ← readVec s
    let (pv, s) ← readVec s
    let (wv, s) ← readVec s
    let (cv, s) ← readReal s
    let (xex, s) ← readReal s
    let (xac, s) ← readReal s
    let (yex, s) ← readReal s
    let (yac, s) ← readReal s
    let (sdec, s) ← readReal s
    let (dmv, s) ← readVec s
    loadLVs k
      { m with t := m.t ++ [tv], p := m.p ++ [pv], w := m.w ++ [wv],
               c := m.c ++ [cv], SSXex := m.SSXex ++ [xex],
               SSXac := m.SSXac ++ [xac], SSYex := m.SSYex ++ [yex],
               SSYac := m.SSYac ++ [yac], SDEC := m.SDEC ++ [sdec],
               dmodx := m.dmodx ++ [dmv] } s

/-- The `for a in range(self.Av)` loop of `pls.loadModel`. -/
def loadCVs : ℕ → Model → List NpVal → Option (Model × List NpVal)
  | 0, m, s => some (m, s)
  | k + 1, m, s => do
    let (ssy, s) ← readReal s
    let (sdep, s) ← readReal s
    let (q2, s) ← readReal s
    loadCVs k
      { m with SSY := m.SSY ++ [ssy], SDEP := m.SDEP ++ [sdep],
               Q2 := m.Q2 ++ [q2] } s

/-- `pls.loadModel`: consumes the stream in exactly the writer's order,
appending per-LV and per-CV artifacts to the (normally fresh) object. -/
def loadModel (m : Model) (s : List NpVal) : Option Model := do
  let (am, s) ← readNat s
  let (av, s) ← readNat s
  let (nobjv, s) ← readNat s
  let (nvarxv, s) ← readNat s
  let (muxv, s) ← readVec s
  let (muyv, s) ← readReal s
  let m1 : Model :=
    { m with Am := am, Av := av, nobj := nobjv, nvarx := nvarxv,
             mux := muxv, muy := muyv }
  let (m2, s) ← loadLVs am m1 s
  let (m3, _) ← loadCVs av m2 s
  some m3

/-- Accessor for the predicted-y sequence of a successful projection. -/
def projY : Except String (List ℝ × List ℝ × List ℝ) → List ℝ
  | Except.ok r => r.1
  | Except.error _ => []

/-- Accessor for the score sequence of a successful projection. -/
def projT : Except String (List ℝ × List ℝ × List ℝ) → List ℝ
  | Except.ok r => r.2.1
  | Except.error _ => []

/-- Rows all have the width read off the first row (`np.shape` sanity of a
rectangular numpy matrix). -/
def RectSelf (X : List (List ℝ)) : Prop := ∀ r ∈ X, r.length = ncols X

/-- Sum of squares of a matrix, the first component of `computeSS`. -/
def SSXof (X : List (List ℝ)) : ℝ := (X.map (fun r => dot r r)).sum

/-- Example training data: a 3-observation, 2-variable set on which NIPALS
extracts two latent variables with exactly rational arithmetic. -/
def Xex : List (List ℝ) := [[1, 1], [0, -2], [-1, 1]]

/-- Responses for `Xex`. -/
def Yex : List ℝ := [5, -2, -3]

/-- Example training data: a 2-observation set whose single weight vector
is `[3/5, 4/5]`. -/
def X8 : List (List ℝ) := [[3, 4], [-3, -4]]

/-- Responses for `X8`. -/
def Y8 : List ℝ := [5, -5]

/-- Example training data for the zero-variance-response scenario. -/
def X7 : List (List ℝ) := [[1, 2], [3, 4]]

/-- A constant (zero-variance) response vector. -/
def Y7 : List ℝ := [5, 5]

/-- Example training data for the `validateLOO` dimensionality scenario. -/
def X6 : List (List ℝ) := [[1], [2]]

/-- Responses for `X6`. -/
def Y6 : List ℝ := [1, 2]

/-- A concrete well-formed fitted-and-validated model state used to
exercise the serialization round trip. -/
def mSer : Model :=
  { plsInit with
    Am := 1, Av := 1, nobj := 2, nvarx := 1,
    mux := [1], muy := 2,
    t := [[1, 2]], p := [[3]], w := [[1]], c := [4],
    SSXex := [5], SSXac := [5], SSYex := [6], SSYac := [6],
    SDEC := [7], dmodx := [[8, 9]],
    SSY := [10], SDEP := [11], Q2 := [12] }

/-- A concrete one-LV model state used to exercise the projection
buffer-mutation property. -/
def mC10 : Model :=
  { plsInit with
    Am := 1, nvarx := 1, mux := [0],
    w := [[1]], p := [[1]], c := [1] }

end

section Lemmas

/-- With `targetSSX = 0` the early-break criterion of the build loop never
fires, so the loop advances the LV counter by exactly the fuel and appends
exactly one entry per iteration to each of the ten per-LV arrays. -/
lemma buildLoop_counts (k : ℕ) : ∀ s : BuildState,
    (buildLoop 0 s k).a = s.a + k ∧
    (buildLoop 0 s k).m.t.length = s.m.t.length + k ∧
    (buildLoop 0 s k).m.p.length = s.m.p.length + k ∧
    (buildLoop 0 s k).m.w.length = s.m.w.length + k ∧
    (buildLoop 0 s k).m.c.length = s.m.c.length + k ∧
    (buildLoop 0 s k).m.SSXex.length = s.m.SSXex.length + k ∧
    (buildLoop 0 s k).m.SSXac.length = s.m.SSXac.length + k ∧
    (buildLoop 0 s k).m.SSYex.length = s.m.SSYex.length + k ∧
    (buildLoop 0 s k).m.SSYac.length = s.m.SSYac.length + k ∧
    (buildLoop 0 s k).m.SDEC.length = s.m.SDEC.length + k ∧
    (buildLoop 0 s k).m.dmodx.length = s.m.dmodx.length + k := by
  induction k with
  | zero => intro s; simp [buildLoop]
  | succ k ih =>
    intro s
    have hif : buildLoop 0 s (k + 1) = buildLoop 0 (buildStep s) k := by
      simp [buildLoop]
    have hstep :
        (buildStep s).a = s.a + 1 ∧
        (buildStep s).m.t.length = s.m.t.length + 1 ∧
        (buildStep s).m.p.length = s.m.p.length + 1 ∧
        (buildStep s).m.w.length = s.m.w.length + 1 ∧
        (buildStep s).m.c.length = s.m.c.length + 1 ∧
        (buildStep s).m.SSXex.length = s.m.SSXex.length + 1 ∧
        (buildStep s).m.SSXac.length = s.m.SSXac.length + 1 ∧
        (buildStep s).m.SSYex.length = s.m.SSYex.length + 1 ∧
        (buildStep s).m.SSYac.length = s.m.SSYac.length + 1 ∧
        (buildStep s).m.SDEC.length = s.m.SDEC.length + 1 ∧
        (buildStep s).m.dmodx.length = s.m.dmodx.length + 1 := by
      simp [buildStep]
    obtain ⟨h1, h2, h3, h4, h5, h6, h7, h8, h9, h10, h11⟩ := ih (buildStep s)
    obtain ⟨g1, g2, g3, g4, g5, g6, g7, g8, g9, g10, g11⟩ := hstep
    rw [hif]
    refine ⟨?_, ?_, ?_, ?_, ?_, ?_, ?_, ?_, ?_, ?_, ?_⟩ <;> omega

/-- The build loop never touches the stored training data. -/
lemma buildLoop_XY (tS : ℝ) (k : ℕ) : ∀ s : BuildState,
    (buildLoop tS s k).m.X = s.m.X ∧ (buildLoop tS s k).m.Y = s.m.Y := by
  induction k with
  | zero => intro s; simp [buildLoop]
  | succ k ih =>
    intro s
    have hstep : (buildStep s).m.X = s.m.X ∧ (buildStep s).m.Y = s.m.Y := by
      simp [buildStep]
    by_cases h : 0 < tS ∧ tS < (buildStep s).SSXacc
    · simp only [buildLoop, if_pos h]
      exact hstep
    · simp only [buildLoop, if_neg h]
      obtain ⟨i1, i2⟩ := ih (buildStep s)
      exact ⟨i1.trans hstep.1, i2.trans hstep.2⟩

/-- `build` stores the original (uncentered) training data. -/
lemma build_XY (m : Model) (X : List (List ℝ)) (Y : List ℝ) (k : ℕ)
    (tS : ℝ) : (build m X Y k tS).X = some X ∧ (build m X Y k tS).Y = some Y := by
  unfold build
  obtain ⟨h1, h2⟩ := buildLoop_XY tS k
    { Xc := (centerMat X).1, Yc := (centerVec Y).1,
      SSX0 := (computeSS (centerMat X).1 (centerVec Y).1).1,
      SSY0 := (computeSS (centerMat X).1 (centerVec Y).1).2.1,
      SSXold := (computeSS (centerMat X).1 (centerVec Y).1).1,
      SSYold := (computeSS (centerMat X).1 (centerVec Y).1).2.1,
      SSXacc := 0, SSYacc := 0,
      nobjL := X.length, nvarxL := ncols X, a := 0,
      m := { m with X := some X, Y := some Y, nobj := X.length,
                    nvarx := ncols X, mux := (centerMat X).2,
                    muy := (centerVec Y).2 } }
  exact ⟨h1, h2⟩

/-- `validateLOO` does not modify `Am` or the stored training data. -/
lemma validateLOO_preserves (m : Model) (A : ℕ) :
    (validateLOO m A).Am = m.Am ∧ (validateLOO m A).X = m.X ∧
    (validateLOO m A).Y = m.Y := by
  cases hX : m.X <;> cases hY : m.Y <;> simp [validateLOO, hX, hY]

/-- When training data is present, `validateLOO A` sets `Av := A`
unconditionally, with no comparison against `Am`. -/
lemma validateLOO_Av (m : Model) (A : ℕ) (X : List (List ℝ)) (Y : List ℝ)
    (hX : m.X = some X) (hY : m.Y = some Y) : (validateLOO m A).Av = A := by
  simp [validateLOO, hX, hY]

/-- With `targetSSX = 0`, `build` extracts exactly `targetA` LVs. -/
lemma build_Am (m : Model) (X : List (List ℝ)) (Y : List ℝ) (k : ℕ) :
    (build m X Y k 0).Am = ((0 : ℕ) + k) := by
  unfold build
  exact (buildLoop_counts k _).1

/-- The buffer returned by the projection loop is the input deflated, in
order, by each returned score times the matching loading vector. -/
lemma projectLoop_final (m : Model) : ∀ (k a : ℕ) (x : List ℝ),
    (projectLoop m x a k).2.2.2 =
      (List.range k).foldl
        (fun xc i =>
          vsub xc (smul ((projectLoop m x a k).2.1.getD i 0) (m.p.getD (a + i) []))) x := by
  intro k
  induction k with
  | zero => intro a x; simp [projectLoop]
  | succ k ih =>
    intro a x
    simp only [projectLoop, List.range_succ_eq_map, List.foldl_cons,
      List.foldl_map, List.getD_cons_zero, List.getD_cons_succ]
    rw [Nat.add_zero]
    rw [ih (a + 1) (vsub x (smul (dot x (m.w.getD a [])) (m.p.getD a [])))]
    congr 1
    funext xc i
    have hadd : a + (i + 1) = a + 1 + i := by omega
    rw [hadd]

/-- Indexing one past the head is indexing the tail. -/
lemma getD_succ_tail {α : Type} (l : List α) (a : ℕ) (d : α) :
    l.getD (a + 1) d = l.tail.getD a d := by
  cases l <;> simp

/-- A nonempty list is its default-read head consed on its tail. -/
lemma getD_zero_cons_tail {α : Type} (l : List α) (d : α) (h : l ≠ []) :
    l.getD 0 d :: l.tail = l := by
  cases l with
  | nil => exact absurd rfl h
  | cons a l => simp

/-- Shifting the LV index of a writer block is reading from the models
with every per-LV list beheaded. -/
lemma lvBlock_succ (m : Model) (a : ℕ) :
    lvBlock m (a + 1) =
      lvBlock
        { m with t := m.t.tail, p := m.p.tail, w := m.w.tail, c := m.c.tail,
                 SSXex := m.SSXex.tail, SSXac := m.SSXac.tail,
                 SSYex := m.SSYex.tail, SSYac := m.SSYac.tail,
                 SDEC := m.SDEC.tail, dmodx := m.dmodx.tail } a := by
  simp [lvBlock, getD_succ_tail]

/-- Peeling the first writer block off the per-LV segment. -/
lemma lvSeg_succ (m : Model) (k : ℕ) :
    ((List.range (k + 1)).map (lvBlock m)).flatten =
      lvBlock m 0 ++
        ((List.range k).map
          (lvBlock
            { m with t := m.t.tail, p := m.p.tail, w := m.w.tail,
                     c := m.c.tail, SSXex := m.SSXex.tail,
                     SSXac := m.SSXac.tail, SSYex := m.SSYex.tail,
                     SSYac := m.SSYac.tail, SDEC := m.SDEC.tail,
                     dmodx := m.dmodx.tail })).flatten := by
  rw [List.range_succ_eq_map, List.map_cons, List.flatten_cons, List.map_map]
  have hfun : lvBlock m ∘ Nat.succ =
      lvBlock
        { m with t := m.t.tail, p := m.p.tail, w := m.w.tail,
                 c := m.c.tail, SSXex := m.SSXex.tail,
                 SSXac := m.SSXac.tail, SSYex := m.SSYex.tail,
                 SSYac := m.SSYac.tail, SDEC := m.SDEC.tail,
                 dmodx := m.dmodx.tail } := by
    funext a
    simpa [Function.comp] using lvBlock_succ m a
  rw [hfun]

/-- Shifting the CV index of a writer block. -/
lemma cvBlock_succ (m : Model) (a : ℕ) :
    cvBlock m (a + 1) =
      cvBlock
        { m with SSY := m.SSY.tail, SDEP := m.SDEP.tail, Q2 := m.Q2.tail } a := by
  simp [cvBlock, getD_succ_tail]

/-- Peeling the first writer block off the CV segment. -/
lemma cvSeg_succ (m : Model) (k : ℕ) :
    ((List.range (k + 1)).map (cvBlock m)).flatten =
      cvBlock m 0 ++
        ((List.range k).map
          (cvBlock
            { m with SSY := m.SSY.tail, SDEP := m.SDEP.tail,
                     Q2 := m.Q2.tail })).flatten := by
  rw [List.range_succ_eq_map, List.map_cons, List.flatten_cons, List.map_map]
  have hfun : cvBlock m ∘ Nat.succ =
      cvBlock
        { m with SSY := m.SSY.tail, SDEP := m.SDEP.tail,
                 Q2 := m.Q2.tail } := by
    funext a
    simpa [Function.comp] using cvBlock_succ m a
  rw [hfun]

/-- One step of the per-LV reader on a stream whose next ten values have
the writer's shapes. -/
lemma loadLVs_cons (k : ℕ) (m : Model) (tv pv wv dmv : List ℝ)
    (cv xex xac yex yac sdec : ℝ) (s : List NpVal) :
    loadLVs (k + 1) m
      (NpVal.vec tv :: NpVal.vec pv :: NpVal.vec wv :: NpVal.real cv ::
       NpVal.real xex :: NpVal.real xac :: NpVal.real yex ::
       NpVal.real yac :: NpVal.real sdec :: NpVal.vec dmv :: s) =
      loadLVs k
        { m with t := m.t ++ [tv], p := m.p ++ [pv], w := m.w ++ [wv],
                 c := m.c ++ [cv], SSXex := m.SSXex ++ [xex],
                 SSXac := m.SSXac ++ [xac], SSYex := m.SSYex ++ [yex],
                 SSYac := m.SSYac ++ [yac], SDEC := m.SDEC ++ [sdec],
                 dmodx := m.dmodx ++ [dmv] } s := rfl

/-- One step of the CV reader on a stream whose next three values have
the writer's shapes. -/
lemma loadCVs_cons (k : ℕ) (m : Model) (ssy sdep q2 : ℝ) (s : List NpVal) :
    loadCVs (k + 1) m
      (NpVal.real ssy :: NpVal.real sdep :: NpVal.real q2 :: s) =
      loadCVs k
        { m with SSY := m.SSY ++ [ssy], SDEP := m.SDEP ++ [sdep],
                 Q2 := m.Q2 ++ [q2] } s := rfl

/-- The per-LV reader consumes exactly the per-LV writer segment,
appending the writer's lists to the accumulator's. -/
lemma loadLVs_roundtrip : ∀ (k : ℕ) (msrc macc : Model) (rest : List NpVal),
    msrc.t.length = k → msrc.p.length = k → msrc.w.length = k →
    msrc.c.length = k → msrc.SSXex.length = k → msrc.SSXac.length = k →
    msrc.SSYex.length = k → msrc.SSYac.length = k → msrc.SDEC.length = k →
    msrc.dmodx.length = k →
    loadLVs k macc (((List.range k).map (lvBlock msrc)).flatten ++ rest) =
      some
        ({ macc with
           t := macc.t ++ msrc.t, p := macc.p ++ msrc.p,
           w := macc.w ++ msrc.w, c := macc.c ++ msrc.c,
           SSXex := macc.SSXex ++ msrc.SSXex,
           SSXac := macc.SSXac ++ msrc.SSXac,
           SSYex := macc.SSYex ++ msrc.SSYex,
           SSYac := macc.SSYac ++ msrc.SSYac,
           SDEC := macc.SDEC ++ msrc.SDEC,
           dmodx := macc.dmodx ++ msrc.dmodx }, rest) := by
  intro k
  induction k with
  | zero =>
    intro msrc macc rest h1 h2 h3 h4 h5 h6 h7 h8 h9 h10
    rw [List.length_eq_zero] at h1 h2 h3 h4 h5 h6 h7 h8 h9 h10
    simp [loadLVs, h1, h2, h3, h4, h5, h6, h7, h8, h9, h10]
  | succ k ih =>
    intro msrc macc rest h1 h2 h3 h4 h5 h6 h7 h8 h9 h10
    rw [lvSeg_succ, List.append_assoc]
    have hne1 : msrc.t ≠ [] := by intro h; rw [h] at h1; simp at h1
    have hne2 : msrc.p ≠ [] := by intro h; rw [h] at h2; simp at h2
    have hne3 : msrc.w ≠ [] := by intro h; rw [h] at h3; simp at h3
    have hne4 : msrc.c ≠ [] := by intro h; rw [h] at h4; simp at h4
    have hne5 : msrc.SSXex ≠ [] := by intro h; rw [h] at h5; simp at h5
    have hne6 : msrc.SSXac ≠ [] := by intro h; rw [h] at h6; simp at h6
    have hne7 : msrc.SSYex ≠ [] := by intro h; rw [h] at h7; simp at h7
    have hne8 : msrc.SSYac ≠ [] := by intro h; rw [h] at h8; simp at h8
    have hne9 : msrc.SDEC ≠ [] := by intro h; rw [h] at h9; simp at h9
    have hne10 : msrc.dmodx ≠ [] := by intro h; rw [h] at h10; simp at h10
    simp only [lvBlock, List.cons_append, List.nil_append]
    rw [loadLVs_cons]
    rw [ih _ _ rest (by simp [h1]) (by simp [h2]) (by simp [h3]) (by simp [h4])
      (by simp [h5]) (by simp [h6]) (by simp [h7]) (by simp [h8])
      (by simp [h9]) (by simp [h10])]
    have e1 : (macc.t ++ [msrc.t.getD 0 []]) ++ msrc.t.tail = macc.t ++ msrc.t := by
      rw [List.append_assoc, List.singleton_append, getD_zero_cons_tail _ _ hne1]
    have e2 : (macc.p ++ [msrc.p.getD 0 []]) ++ msrc.p.tail = macc.p ++ msrc.p := by
      rw [List.append_assoc, List.singleton_append, getD_zero_cons_tail _ _ hne2]
    have e3 : (macc.w ++ [msrc.w.getD 0 []]) ++ msrc.w.tail = macc.w ++ msrc.w := by
      rw [List.append_assoc, List.singleton_append, getD_zero_cons_tail _ _ hne3]
    have e4 : (macc.c ++ [msrc.c.getD 0 0]) ++ msrc.c.tail = macc.c ++ msrc.c := by
      rw [List.append_assoc, List.singleton_append, getD_zero_cons_tail _ _ hne4]
    have e5 : (macc.SSXex ++ [msrc.SSXex.getD 0 0]) ++ msrc.SSXex.tail =
        macc.SSXex ++ msrc.SSXex := by
      rw [List.append_assoc, List.singleton_append, getD_zero_cons_tail _ _ hne5]
    have e6 : (macc.SSXac ++ [msrc.SSXac.getD 0 0]) ++ msrc.SSXac.tail =
        macc.SSXac ++ msrc.SSXac := by
      rw [List.append_assoc, List.singleton_append, getD_zero_cons_tail _ _ hne6]
    have e7 : (macc.SSYex ++ [msrc.SSYex.getD 0 0]) ++ msrc.SSYex.tail =
        macc.SSYex ++ msrc.SSYex := by
      rw [List.append_assoc, List.singleton_append, getD_zero_cons_tail _ _ hne7]
    have e8 : (macc.SSYac ++ [msrc.SSYac.getD 0 0]) ++ msrc.SSYac.tail =
        macc.SSYac ++ msrc.SSYac := by
      rw [List.append_assoc, List.singleton_append, getD_zero_cons_tail _ _ hne8]
    have e9 : (macc.SDEC ++ [msrc.SDEC.getD 0 0]) ++ msrc.SDEC.tail =
        macc.SDEC ++ msrc.SDEC := by
      rw [List.append_assoc, List.singleton_append, getD_zero_cons_tail _ _ hne9]
    have e10 : (macc.dmodx ++ [msrc.dmodx.getD 0 []]) ++ msrc.dmodx.tail =
        macc.dmodx ++ msrc.dmodx := by
      rw [List.append_assoc, List.singleton_append, getD_zero_cons_tail _ _ hne10]
    rw [e1, e2, e3, e4, e5, e6, e7, e8, e9, e10]

/-- The CV reader consumes exactly the CV writer segment. -/
lemma loadCVs_roundtrip : ∀ (k : ℕ) (msrc macc : Model) (rest : List NpVal),
    msrc.SSY.length = k → msrc.SDEP.length = k → msrc.Q2.length = k →
    loadCVs k macc (((List.range k).map (cvBlock msrc)).flatten ++ rest) =
      some
        ({ macc with
           SSY := macc.SSY ++ msrc.SSY, SDEP := macc.SDEP ++ msrc.SDEP,
           Q2 := macc.Q2 ++ msrc.Q2 }, rest) := by
  intro k
  induction k with
  | zero =>
    intro msrc macc rest h1 h2 h3
    rw [List.length_eq_zero] at h1 h2 h3
    simp [loadCVs, h1, h2, h3]
  | succ k ih =>
    intro msrc macc rest h1 h2 h3
    rw [cvSeg_succ, List.append_assoc]
    have hne1 : msrc.SSY ≠ [] := by intro h; rw [h] at h1; simp at h1
    have hne2 : msrc.SDEP ≠ [] := by intro h; rw [h] at h2; simp at h2
    have hne3 : msrc.Q2 ≠ [] := by intro h; rw [h] at h3; simp at h3
    simp only [cvBlock, List.cons_append, List.nil_append]
    rw [loadCVs_cons]
    rw [ih _ _ rest (by simp [h1]) (by simp [h2]) (by simp [h3])]
    have e1 : (macc.SSY ++ [msrc.SSY.getD 0 0]) ++ msrc.SSY.tail =
        macc.SSY ++ msrc.SSY := by
      rw [List.append_assoc, List.singleton_append, getD_zero_cons_tail _ _ hne1]
    have e2 : (macc.SDEP ++ [msrc.SDEP.getD 0 0]) ++ msrc.SDEP.tail =
        macc.SDEP ++ msrc.SDEP := by
      rw [List.append_assoc, List.singleton_append, getD_zero_cons_tail _ _ hne2]
    have e3 : (macc.Q2 ++ [msrc.Q2.getD 0 0]) ++ msrc.Q2.tail =
        macc.Q2 ++ msrc.Q2 := by
      rw [List.append_assoc, List.singleton_append, getD_zero_cons_tail _ _ hne3]
    rw [e1, e2, e3]

/-- Reading the scalar-and-means header consumes the first six stream
values in the writer's order. -/
lemma loadModel_cons (m0 : Model) (am av nb nv : ℕ) (mu : List ℝ) (my : ℝ)
    (s : List NpVal) :
    loadModel m0
      (NpVal.nat am :: NpVal.nat av :: NpVal.nat nb :: NpVal.nat nv ::
       NpVal.vec mu :: NpVal.real my :: s) =
      (loadLVs am
        { m0 with Am := am, Av := av, nobj := nb, nvarx := nv,
                  mux := mu, muy := my } s).bind
        (fun r => (loadCVs av r.1 r.2).bind (fun r2 => some r2.1)) := rfl

/-- Dot product of conses. -/
lemma dot_cons (a b : ℝ) (as bs : List ℝ) :
    dot (a :: as) (b :: bs) = a * b + dot as bs := by
  simp [dot]

/-- A dot product of a vector with itself is non-negative. -/
lemma dot_self_nonneg (v : List ℝ) : 0 ≤ dot v v := by
  induction v with
  | nil => simp [dot]
  | cons a as ih => rw [dot_cons]; nlinarith [sq_nonneg a]

/-- A vector with vanishing self-dot-product is entrywise zero. -/
lemma dot_self_eq_zero (v : List ℝ) (h : dot v v = 0) : ∀ x ∈ v, x = 0 := by
  induction v with
  | nil => simp
  | cons a as ih =>
    rw [dot_cons] at h
    have ha : a * a = 0 := by nlinarith [dot_self_nonneg as, sq_nonneg a]
    have has : dot as as = 0 := by nlinarith [dot_self_nonneg as, sq_nonneg a]
    intro x hx
    rcases List.mem_cons.mp hx with hx | hx
    · subst hx; nlinarith
    · exact ih has x hx

/-- A vector with a nonzero entry has positive self-dot-product. -/
lemma dot_self_pos (v : List ℝ) (x : ℝ) (hx : x ∈ v) (hne : x ≠ 0) :
    0 < dot v v := by
  rcases lt_or_eq_of_le (dot_self_nonneg v) with h | h
  · exact h
  · exact absurd (dot_self_eq_zero v h.symm x hx) hne

/-- Self-dot-product of an entrywise-divided vector. -/
lemma dot_map_div (v : List ℝ) (k : ℝ) :
    dot (v.map (fun x => x / k)) (v.map (fun x => x / k)) = dot v v / k ^ 2 := by
  induction v with
  | nil => simp [dot]
  | cons a as ih =>
    simp only [List.map_cons, dot_cons, ih]
    rw [div_mul_div_comm, pow_two, div_add_div_same]

/-- Dividing a vector by the square root of its self-dot-product yields a
unit vector, provided the result is not entrywise zero. -/
lemma normalized_dot (v : List ℝ)
    (hx : ∃ u ∈ v.map (fun x => x / Real.sqrt (dot v v)), u ≠ 0) :
    Real.sqrt
      (dot (v.map (fun x => x / Real.sqrt (dot v v)))
        (v.map (fun x => x / Real.sqrt (dot v v)))) = 1 := by
  obtain ⟨u, hu, hune⟩ := hx
  rw [List.mem_map] at hu
  obtain ⟨x, hxv, hxu⟩ := hu
  have hxne : x ≠ 0 := by
    intro h
    apply hune
    rw [← hxu, h, zero_div]
  have hpos : 0 < dot v v := dot_self_pos v x hxv hxne
  rw [dot_map_div, Real.sq_sqrt (le_of_lt hpos), div_self (ne_of_gt hpos),
    Real.sqrt_one]

/-- The weight vector extracted by a single NIPALS step is
unit-normalized whenever it is not entrywise zero. -/
lemma extractLV_w_unit (X : List (List ℝ)) (Y : List ℝ)
    (hx : ∃ u ∈ (extractLV X Y).2.2.1, u ≠ 0) :
    Real.sqrt (dot (extractLV X Y).2.2.1 (extractLV X Y).2.2.1) = 1 := by
  simp only [extractLV] at hx ⊢
  exact normalized_dot _ hx

/-- Every weight vector accumulated by the build loop is unit-normalized
unless entrywise zero. -/
lemma buildLoop_w_unit (tS : ℝ) (k : ℕ) : ∀ s : BuildState,
    (∀ wv ∈ s.m.w, (∃ u ∈ wv, u ≠ 0) → Real.sqrt (dot wv wv) = 1) →
    ∀ wv ∈ (buildLoop tS s k).m.w,
      (∃ u ∈ wv, u ≠ 0) → Real.sqrt (dot wv wv) = 1 := by
  induction k with
  | zero => intro s h; simpa [buildLoop] using h
  | succ k ih =>
    intro s h
    have hstep : ∀ wv ∈ (buildStep s).m.w,
        (∃ u ∈ wv, u ≠ 0) → Real.sqrt (dot wv wv) = 1 := by
      intro wv hmem
      have hw : (buildStep s).m.w = s.m.w ++ [(extractLV s.Xc s.Yc).2.2.1] := by
        simp [buildStep]
      rw [hw] at hmem
      rcases List.mem_append.mp hmem with h1 | h2
      · exact h wv h1
      · rw [List.mem_singleton] at h2
        subst h2
        exact extractLV_w_unit _ _
    by_cases hc : 0 < tS ∧ tS < (buildStep s).SSXacc
    · simp only [buildLoop, if_pos hc]
      exact hstep
    · simp only [buildLoop, if_neg hc]
      exact ih (buildStep s) hstep

/-- Dot product with an entrywise-zero left factor vanishes. -/
lemma dot_zero_left (v : List ℝ) (h : ∀ x ∈ v, x = 0) : ∀ u : List ℝ, dot v u = 0 := by
  induction v with
  | nil => intro u; simp [dot]
  | cons a as ih =>
    intro u
    cases u with
    | nil => simp [dot]
    | cons b bs =>
      rw [dot_cons, h a (List.mem_cons_self a as), zero_mul, zero_add]
      exact ih (fun x hx => h x (List.mem_cons_of_mem a hx)) bs

/-- A zipWith whose function vanishes on the input entries is entrywise
zero. -/
lemma zipWith_all_zero (f : ℝ → ℝ → ℝ) (as bs : List ℝ)
    (h : ∀ a ∈ as, ∀ b ∈ bs, f a b = 0) :
    ∀ z ∈ List.zipWith f as bs, z = 0 := by
  induction as generalizing bs with
  | nil => intro z hz; simp at hz
  | cons a as ih =>
    intro z hz
    cases bs with
    | nil => simp at hz
    | cons b bs =>
      rw [List.zipWith_cons_cons] at hz
      rcases List.mem_cons.mp hz with hz | hz
      · rw [hz]
        exact h a (List.mem_cons_self a as) b (List.mem_cons_self b bs)
      · exact ih bs
          (fun x hx y hy =>
            h x (List.mem_cons_of_mem a hx) y (List.mem_cons_of_mem b hy)) z hz

/-- On an entrywise-zero (centered) response, the NIPALS extraction step
divides by `Y·Y = 0` and every computed quantity degenerates: weights,
scores and loadings are entrywise zero and the inner relation is zero
(the embedded image of the NaN values float64 would produce). -/
lemma extractLV_degenerate (X : List (List ℝ)) (Y : List ℝ)
    (hY : ∀ y ∈ Y, y = 0) :
    (∀ u ∈ (extractLV X Y).2.2.1, u = 0) ∧
    (∀ u ∈ (extractLV X Y).1, u = 0) ∧
    (∀ u ∈ (extractLV X Y).2.1, u = 0) ∧
    (extractLV X Y).2.2.2 = 0 := by
  simp only [extractLV]
  have hw0 : ∀ u ∈ (List.range (ncols X)).map
      (fun j => dot Y (col X j) / dot Y Y), u = 0 := by
    intro u hu
    rw [List.mem_map] at hu
    obtain ⟨j, _, rfl⟩ := hu
    rw [dot_zero_left Y hY, zero_div]
  have hw : ∀ u ∈ ((List.range (ncols X)).map
      (fun j => dot Y (col X j) / dot Y Y)).map
      (fun x => x / Real.sqrt
        (dot ((List.range (ncols X)).map (fun j => dot Y (col X j) / dot Y Y))
          ((List.range (ncols X)).map (fun j => dot Y (col X j) / dot Y Y)))),
      u = 0 := by
    intro u hu
    rw [List.mem_map] at hu
    obtain ⟨x, hx, rfl⟩ := hu
    rw [hw0 x hx, zero_div]
  have ht : ∀ u ∈ X.map (fun r => dot (((List.range (ncols X)).map
      (fun j => dot Y (col X j) / dot Y Y)).map
      (fun x => x / Real.sqrt
        (dot ((List.range (ncols X)).map (fun j => dot Y (col X j) / dot Y Y))
          ((List.range (ncols X)).map (fun j => dot Y (col X j) / dot Y Y)))))
      r), u = 0 := by
    intro u hu
    rw [List.mem_map] at hu
    obtain ⟨r, _, rfl⟩ := hu
    exact dot_zero_left _ hw r
  refine ⟨hw, ht, ?_, ?_⟩
  · intro u hu
    rw [List.mem_map] at hu
    obtain ⟨j, _, rfl⟩ := hu
    rw [dot_zero_left _ ht, zero_div]
  · rw [dot_zero_left _ ht, zero_div]

/-- The build loop on an entrywise-zero centered response keeps the
response zero and appends only entrywise-zero weight vectors. -/
lemma buildLoop_degenerate (tS : ℝ) (k : ℕ) : ∀ s : BuildState,
    (∀ y ∈ s.Yc, y = 0) →
    (∀ wv ∈ s.m.w, ∀ u ∈ wv, u = 0) →
    ∀ wv ∈ (buildLoop tS s k).m.w, ∀ u ∈ wv, u = 0 := by
  induction k with
  | zero => intro s _ h; simpa [buildLoop] using h
  | succ k ih =>
    intro s hY h
    obtain ⟨hw, ht, hp, hc⟩ := extractLV_degenerate s.Xc s.Yc hY
    have hY2 : ∀ y ∈ (buildStep s).Yc, y = 0 := by
      have hd : (buildStep s).Yc =
          List.zipWith (fun yi ti => yi - ti * (extractLV s.Xc s.Yc).2.2.2)
            s.Yc (extractLV s.Xc s.Yc).1 := by
        simp [buildStep, deflateLV]
      rw [hd]
      exact zipWith_all_zero _ _ _
        (fun a ha b _ => by rw [hY a ha, hc, mul_zero, sub_zero])
    have hw2 : ∀ wv ∈ (buildStep s).m.w, ∀ u ∈ wv, u = 0 := by
      intro wv hmem
      have hws : (buildStep s).m.w = s.m.w ++ [(extractLV s.Xc s.Yc).2.2.1] := by
        simp [buildStep]
      rw [hws] at hmem
      rcases List.mem_append.mp hmem with h1 | h2
      · exact h wv h1
      · rw [List.mem_singleton] at h2
        subst h2
        exact hw
    by_cases hcond : 0 < tS ∧ tS < (buildStep s).SSXacc
    · simp only [buildLoop, if_pos hcond]
      exact hw2
    · simp only [buildLoop, if_neg hcond]
      exact ih (buildStep s) hY2 hw2

/-- A constant list sums to the constant times its length. -/
lemma list_sum_const (Y : List ℝ) (y0 : ℝ) (hY : ∀ y ∈ Y, y = y0) :
    Y.sum = y0 * (Y.length : ℝ) := by
  induction Y with
  | nil => simp
  | cons a as ih =>
    have ha : a = y0 := hY a (List.mem_cons_self a as)
    have has : as.sum = y0 * (as.length : ℝ) :=
      ih (fun y hy => hY y (List.mem_cons_of_mem a hy))
    rw [List.sum_cons, ha, has]
    simp only [List.length_cons]
    push_cast
    ring

/-- Centering a constant response yields the entrywise-zero response. -/
lemma centerVec_const (Y : List ℝ) (y0 : ℝ) (hY : ∀ y ∈ Y, y = y0) :
    ∀ y ∈ (centerVec Y).1, y = 0 := by
  cases hempty : Y with
  | nil => simp [centerVec]
  | cons a as =>
    have hlen : (Y.length : ℝ) ≠ 0 := by
      rw [hempty]
      simp
      positivity
    have hmean : mean Y = y0 := by
      rw [mean, list_sum_const Y y0 hY, mul_div_assoc, div_self hlen, mul_one]
    rw [← hempty]
    intro y hy
    rw [centerVec] at hy
    simp only at hy
    rw [List.mem_map] at hy
    obtain ⟨x, hx, rfl⟩ := hy
    rw [hmean, hY x hx, sub_self]

/-- A mapped list sum as a `Finset.range` sum over default-reads. -/
lemma sum_map_eq_sum_range {α : Type} (l : List α) (f : α → ℝ) (d : α) :
    (l.map f).sum = ∑ i ∈ Finset.range l.length, f (l.getD i d) := by
  induction l with
  | nil => simp
  | cons a as ih =>
    rw [List.map_cons, List.sum_cons, List.length_cons, Finset.sum_range_succ']
    simp only [List.getD_cons_succ, List.getD_cons_zero]
    rw [ih]
    ring

/-- A dot product of equal-length vectors as a `Finset.range` sum. -/
lemma dot_eq_sum_range (a : List ℝ) : ∀ b : List ℝ, a.length = b.length →
    dot a b = ∑ i ∈ Finset.range a.length, a.getD i 0 * b.getD i 0 := by
  induction a with
  | nil => intro b h; simp [dot]
  | cons x as ih =>
    intro b h
    cases b with
    | nil => simp at h
    | cons y bs =>
      rw [dot_cons, List.length_cons, Finset.sum_range_succ']
      simp only [List.getD_cons_succ, List.getD_cons_zero]
      rw [ih bs (by simpa using h)]
      ring

/-- Default-read through `List.map` at an in-range index. -/
lemma getD_map_lt {α β : Type} (f : α → β) (l : List α) (i : ℕ) (d : β)
    (d0 : α) (h : i < l.length) : (l.map f).getD i d = f (l.getD i d0) := by
  induction l generalizing i with
  | nil => simp at h
  | cons a as ih =>
    cases i with
    | zero => simp
    | succ i =>
      simp only [List.map_cons, List.getD_cons_succ]
      exact ih i (by simpa using h)

/-- Default-read of `List.range` at an in-range index. -/
lemma getD_range_lt (n i : ℕ) (d : ℕ) (h : i < n) :
    (List.range n).getD i d = i := by
  induction n generalizing i with
  | zero => omega
  | succ n ih =>
    rcases Nat.lt_or_ge i n with hi | hi
    · rw [List.range_succ, List.getD_eq_getD_get?, List.get?_append
        (by simpa using hi)]
      rw [← List.getD_eq_getD_get?]
      exact ih i hi
    · have hieq : i = n := by omega
      subst hieq
      rw [List.range_succ]
      rw [List.getD_eq_getD_get?, List.get?_append_right (by simp),
        List.length_range]
      simp

/-- Squared-norm expansion of a deflation step on a single row. -/
lemma dot_sub_smul (r : List ℝ) : ∀ (p : List ℝ) (k : ℝ),
    r.length = p.length →
    dot (vsub r (smul k p)) (vsub r (smul k p)) =
      dot r r - 2 * k * dot r p + k ^ 2 * dot p p := by
  induction r with
  | nil =>
    intro p k h
    cases p with
    | nil => simp [dot, vsub, smul]
    | cons y ps => simp at h
  | cons x rs ih =>
    intro p k h
    cases p with
    | nil => simp at h
    | cons y ps =>
      have ihp := ih ps k (by simpa using h)
      simp only [vsub, smul, List.map_cons, List.zipWith_cons_cons] at ihp ⊢
      rw [dot_cons, dot_cons, dot_cons, dot_cons, ihp]
      ring

/-- Zipping a list against a map of itself is a single map. -/
lemma zipWith_with_map {α β γ : Type} (f : α → β → γ) (g : α → β)
    (l : List α) : List.zipWith f l (l.map g) = l.map (fun x => f x (g x)) := by
  induction l with
  | nil => simp
  | cons a as ih => simp [ih]

/-- Splitting a mapped sum of a three-term linear combination. -/
lemma sum_map_sub_add (l : List (List ℝ)) (f g h : List ℝ → ℝ) :
    (l.map (fun x => f x - g x + h x)).sum =
      (l.map f).sum - (l.map g).sum + (l.map h).sum := by
  induction l with
  | nil => simp
  | cons a as ih =>
    simp only [List.map_cons, List.sum_cons, ih]
    ring

/-- Pull a constant factor 2 out of a mapped sum of products. -/
lemma sum_map_two_mul (l : List (List ℝ)) (f g : List ℝ → ℝ) :
    (l.map (fun x => 2 * f x * g x)).sum =
      2 * (l.map (fun x => f x * g x)).sum := by
  induction l with
  | nil => simp
  | cons a as ih => simp only [List.map_cons, List.sum_cons]; rw [ih]; ring

/-- Pull a constant right factor out of a mapped sum. -/
lemma sum_map_mul_right (l : List (List ℝ)) (f : List ℝ → ℝ) (c : ℝ) :
    (l.map (fun x => f x * c)).sum = (l.map f).sum * c := by
  induction l with
  | nil => simp
  | cons a as ih => simp only [List.map_cons, List.sum_cons]; rw [ih]; ring

/-- An in-range default-read is a member. -/
lemma getD_mem_of_lt {α : Type} (l : List α) (i : ℕ) (d : α)
    (h : i < l.length) : l.getD i d ∈ l := by
  induction l generalizing i with
  | nil => simp at h
  | cons a as ih =>
    cases i with
    | zero => simp
    | succ i =>
      rw [List.getD_cons_succ]
      exact List.mem_cons_of_mem a (ih i (by simpa using h))

/-- Core NIPALS inequality: deflating a rectangular `X` by the rank-one
reconstruction built from scores `t = X·w` (any `w`) and least-squares
loadings `p_j = (t·X_j)/(t·t)` never increases the sum of squares of `X`.
Lean's `x / 0 = 0` makes the degenerate `t·t = 0` branch an equality. -/
lemma SSX_deflate_core (X : List (List ℝ)) (w : List ℝ)
    (hrect : RectSelf X) :
    SSXof
      (List.zipWith
        (fun r ti =>
          vsub r
            (smul ti
              ((List.range (ncols X)).map
                (fun j =>
                  dot (X.map (fun r2 => dot w r2)) (col X j) /
                    dot (X.map (fun r2 => dot w r2))
                      (X.map (fun r2 => dot w r2))))))
        X (X.map (fun r2 => dot w r2))) ≤ SSXof X := by
  set L := ncols X with hL
  set t := X.map (fun r2 => dot w r2) with htdef
  set tt := dot t t with httdef
  set p := (List.range L).map (fun j => dot t (col X j) / tt) with hpdef
  set n := X.length with hn
  set S : ℕ → ℝ := fun j => dot t (col X j) with hSdef
  rw [zipWith_with_map]
  simp only [SSXof, List.map_map, Function.comp_def]
  have hplen : p.length = L := by rw [hpdef]; simp
  have hrow : ∀ x ∈ X,
      dot (vsub x (smul (dot w x) p)) (vsub x (smul (dot w x) p)) =
        dot x x - 2 * dot w x * dot x p + (dot w x) ^ 2 * dot p p := by
    intro x hx
    exact dot_sub_smul x p (dot w x) (by rw [hrect x hx, hplen])
  rw [List.map_congr_left hrow, sum_map_sub_add]
  rw [sum_map_two_mul X (fun x => dot w x) (fun x => dot x p),
    sum_map_mul_right X (fun x => (dot w x) ^ 2) (dot p p)]
  have hT3 : (X.map (fun x => (dot w x) ^ 2)).sum = tt := by
    rw [httdef, htdef, dot, List.zipWith_map, List.zipWith_same]
    apply congrArg
    apply List.map_congr_left
    intro x _
    ring
  have htlen : t.length = n := by rw [htdef]; simp
  have hti : ∀ i, i < n → t.getD i 0 = dot w (X.getD i []) := by
    intro i hi
    rw [htdef]
    exact getD_map_lt _ X i 0 [] hi
  have hcolD : ∀ j i, i < n → (col X j).getD i 0 = (X.getD i []).getD j 0 := by
    intro j i hi
    rw [col]
    exact getD_map_lt _ X i 0 [] hi
  have hpj : ∀ j, j < L → p.getD j 0 = S j / tt := by
    intro j hj
    rw [hpdef, getD_map_lt _ _ j 0 0 (by simpa using hj), getD_range_lt L j 0 hj]
  have hS : ∀ j, S j = ∑ i ∈ Finset.range n, dot w (X.getD i []) * (X.getD i []).getD j 0 := by
    intro j
    show dot t (col X j) =
      ∑ i ∈ Finset.range n, dot w (X.getD i []) * (X.getD i []).getD j 0
    have hcl : (col X j).length = n := by rw [col]; simp
    rw [dot_eq_sum_range t (col X j) (by rw [htlen, hcl]), htlen]
    apply Finset.sum_congr rfl
    intro i hi
    rw [Finset.mem_range] at hi
    rw [hti i hi, hcolD j i hi]
  have hT2 : (X.map (fun x => dot w x * dot x p)).sum =
      ∑ j ∈ Finset.range L, S j * (S j / tt) := by
    rw [sum_map_eq_sum_range X _ []]
    have hinner : ∀ i ∈ Finset.range n,
        dot w (X.getD i []) * dot (X.getD i []) p =
          ∑ j ∈ Finset.range L,
            dot w (X.getD i []) * ((X.getD i []).getD j 0 * p.getD j 0) := by
      intro i hi
      rw [Finset.mem_range] at hi
      have hxlen : (X.getD i []).length = L :=
        hrect (X.getD i []) (getD_mem_of_lt X i [] hi)
      rw [dot_eq_sum_range (X.getD i []) p (by rw [hxlen, hplen]), hxlen,
        Finset.mul_sum]
    rw [Finset.sum_congr rfl hinner, Finset.sum_comm]
    apply Finset.sum_congr rfl
    intro j hj
    rw [Finset.mem_range] at hj
    rw [hS j, hpj j hj, hS j, Finset.sum_mul]
    apply Finset.sum_congr rfl
    intro i _
    ring
  have hpp : dot p p = ∑ j ∈ Finset.range L, (S j / tt) ^ 2 := by
    rw [dot_eq_sum_range p p rfl, hplen]
    apply Finset.sum_congr rfl
    intro j hj
    rw [Finset.mem_range] at hj
    rw [hpj j hj]
    ring
  rw [hT3, hT2, hpp]
  rcases eq_or_lt_of_le (dot_self_nonneg t) with htt0 | httpos
  · have h1 : ∑ j ∈ Finset.range L, S j * (S j / tt) = 0 := by
      apply Finset.sum_eq_zero
      intro j _
      rw [httdef, ← htt0, div_zero, mul_zero]
    have h2 : ∑ j ∈ Finset.range L, (S j / tt) ^ 2 = 0 := by
      apply Finset.sum_eq_zero
      intro j _
      rw [httdef, ← htt0, div_zero]
      ring
    rw [h1, h2]
    simp
  · have httne : tt ≠ 0 := ne_of_gt httpos
    have h1 : ∑ j ∈ Finset.range L, S j * (S j / tt) =
        (∑ j ∈ Finset.range L, (S j) ^ 2) / tt := by
      rw [Finset.sum_div]
      apply Finset.sum_congr rfl
      intro j _
      rw [pow_two, mul_div_assoc]
    have h2 : tt * (∑ j ∈ Finset.range L, (S j / tt) ^ 2) =
        (∑ j ∈ Finset.range L, (S j) ^ 2) / tt := by
      rw [Finset.mul_sum, Finset.sum_div]
      apply Finset.sum_congr rfl
      intro j _
      rw [div_pow]
      field_simp
      ring
    have hQnn : 0 ≤ (∑ j ∈ Finset.range L, (S j) ^ 2) / tt :=
      div_nonneg (Finset.sum_nonneg (fun j _ => sq_nonneg (S j))) httpos.le
    rw [h1, h2]
    linarith

/-- The sum of squares of deflated `X` never exceeds that of `X`, for the
scores, loadings and inner relation produced by `extractLV`. -/
lemma SSX_deflate_extract_le (X : List (List ℝ)) (Y : List ℝ)
    (hrect : RectSelf X) :
    SSXof
      (deflateLV X Y (extractLV X Y).1 (extractLV X Y).2.1
        (extractLV X Y).2.2.2).1 ≤ SSXof X := by
  have ht : (extractLV X Y).1 =
      X.map (fun r2 => dot (extractLV X Y).2.2.1 r2) := by
    simp only [extractLV]
  have hp : (extractLV X Y).2.1 =
      (List.range (ncols X)).map
        (fun j =>
          dot (X.map (fun r2 => dot (extractLV X Y).2.2.1 r2)) (col X j) /
            dot (X.map (fun r2 => dot (extractLV X Y).2.2.1 r2))
              (X.map (fun r2 => dot (extractLV X Y).2.2.1 r2))) := by
    simp only [extractLV]
  show SSXof
      (List.zipWith
        (fun r ti => vsub r (smul ti (extractLV X Y).2.1)) X
        (extractLV X Y).1) ≤ SSXof X
  rw [ht, hp]
  exact SSX_deflate_core X (extractLV X Y).2.2.1 hrect

/-- Every row of a deflated matrix keeps the common row length. -/
lemma zipWith_row_length (L : ℕ) (p : List ℝ) (hp : p.length = L) :
    ∀ (X : List (List ℝ)) (t : List ℝ), (∀ r ∈ X, r.length = L) →
    ∀ r2 ∈ List.zipWith (fun r ti => vsub r (smul ti p)) X t, r2.length = L := by
  intro X
  induction X with
  | nil => intro t _ r2 hr2; simp at hr2
  | cons r rs ih =>
    intro t hlen r2 hr2
    cases t with
    | nil => simp at hr2
    | cons ti ts =>
      rw [List.zipWith_cons_cons] at hr2
      rcases List.mem_cons.mp hr2 with hr2 | hr2
      · subst hr2
        simp [vsub, smul, hp, hlen r (List.mem_cons_self r rs)]
      · exact ih ts (fun q hq => hlen q (List.mem_cons_of_mem r hq)) r2 hr2

/-- A matrix whose rows share one length is rectangular in the
`RectSelf` sense. -/
lemma rect_of_rows (Z : List (List ℝ)) (L : ℕ) (h : ∀ r ∈ Z, r.length = L) :
    RectSelf Z := by
  intro r hr
  rw [h r hr]
  cases Z with
  | nil => simp at hr
  | cons z zs =>
    rw [ncols]
    simp [h z (List.mem_cons_self z zs)]

/-- Deflation by `extractLV`'s outputs preserves rectangularity. -/
lemma rect_deflate (X : List (List ℝ)) (Y : List ℝ) (hrect : RectSelf X) :
    RectSelf
      (deflateLV X Y (extractLV X Y).1 (extractLV X Y).2.1
        (extractLV X Y).2.2.2).1 := by
  have hp : (extractLV X Y).2.1.length = ncols X := by
    simp only [extractLV]
    simp
  exact rect_of_rows _ (ncols X)
    (zipWith_row_length (ncols X) _ hp X (extractLV X Y).1 hrect)

/-- Invariant of the build loop: with a rectangular working matrix, the
`SSXac` list stays a `≤`-chain whose last entry is the running
accumulator, because each `SSXex` increment is non-negative. -/
lemma buildLoop_SSXac_chain (tS : ℝ) (k : ℕ) : ∀ s : BuildState,
    RectSelf s.Xc →
    s.SSXold = SSXof s.Xc →
    0 ≤ s.SSX0 →
    List.Chain' (fun a b => a ≤ b) s.m.SSXac →
    (∀ a ∈ s.m.SSXac.getLast?, a = s.SSXacc) →
    List.Chain' (fun a b => a ≤ b) (buildLoop tS s k).m.SSXac := by
  induction k with
  | zero => intro s _ _ _ hch _; simpa [buildLoop] using hch
  | succ k ih =>
    intro s hrect hold h0 hch hlast
    have hle : SSXof
        (deflateLV s.Xc s.Yc (extractLV s.Xc s.Yc).1 (extractLV s.Xc s.Yc).2.1
          (extractLV s.Xc s.Yc).2.2.2).1 ≤ SSXof s.Xc :=
      SSX_deflate_extract_le s.Xc s.Yc hrect
    have hex0 : 0 ≤ (s.SSXold - SSXof
        (deflateLV s.Xc s.Yc (extractLV s.Xc s.Yc).1 (extractLV s.Xc s.Yc).2.1
          (extractLV s.Xc s.Yc).2.2.2).1) / s.SSX0 := by
      apply div_nonneg _ h0
      rw [hold]
      linarith
    have hnewlist : (buildStep s).m.SSXac =
        s.m.SSXac ++ [s.SSXacc + (s.SSXold - SSXof
          (deflateLV s.Xc s.Yc (extractLV s.Xc s.Yc).1 (extractLV s.Xc s.Yc).2.1
            (extractLV s.Xc s.Yc).2.2.2).1) / s.SSX0] := by
      simp only [buildStep, computeSS, SSXof, deflateLV]
    have hch2 : List.Chain' (fun a b => a ≤ b) (buildStep s).m.SSXac := by
      rw [hnewlist, List.chain'_append]
      refine ⟨hch, List.chain'_singleton _, ?_⟩
      intro a ha y hy
      simp only [List.head?_cons, Option.mem_def, Option.some.injEq] at hy
      subst hy
      rw [hlast a ha]
      linarith
    have hlast2 : ∀ a ∈ (buildStep s).m.SSXac.getLast?, a = (buildStep s).SSXacc := by
      intro a ha
      rw [hnewlist, List.getLast?_concat] at ha
      simp only [Option.mem_def, Option.some.injEq] at ha
      subst ha
      simp only [buildStep, computeSS, SSXof, deflateLV]
    have hrect2 : RectSelf (buildStep s).Xc := by
      have hXc : (buildStep s).Xc =
          (deflateLV s.Xc s.Yc (extractLV s.Xc s.Yc).1 (extractLV s.Xc s.Yc).2.1
            (extractLV s.Xc s.Yc).2.2.2).1 := by
        simp only [buildStep]
      rw [hXc]
      exact rect_deflate s.Xc s.Yc hrect
    have hold2 : (buildStep s).SSXold = SSXof (buildStep s).Xc := by
      simp only [buildStep, computeSS, SSXof, deflateLV]
    have h02 : 0 ≤ (buildStep s).SSX0 := by
      simpa only [buildStep] using h0
    by_cases hc : 0 < tS ∧ tS < (buildStep s).SSXacc
    · simp only [buildLoop, if_pos hc]
      exact hch2
    · simp only [buildLoop, if_neg hc]
      exact ih (buildStep s) hrect2 hold2 h02 hch2 hlast2

/-- Centering preserves rectangularity. -/
lemma rect_centerMat (X : List (List ℝ)) (hrect : RectSelf X) :
    RectSelf (centerMat X).1 := by
  have hmu : ((List.range (ncols X)).map (fun j => mean (col X j))).length =
      ncols X := by simp
  apply rect_of_rows _ (ncols X)
  intro r2 hr2
  rw [centerMat] at hr2
  simp only at hr2
  rw [List.mem_map] at hr2
  obtain ⟨r, hr, rfl⟩ := hr2
  simp [vsub, hmu, hrect r hr]

/-- Every sum of squares is non-negative. -/
lemma SSXof_nonneg (X : List (List ℝ)) : 0 ≤ SSXof X := by
  rw [SSXof]
  apply List.sum_nonneg
  intro x hx
  rw [List.mem_map] at hx
  obtain ⟨r, _, rfl⟩ := hx
  exact dot_self_nonneg r

/-- Length bookkeeping for the accumulated-variance list of `build`. -/
lemma build_SSXac_length (m : Model) (X : List (List ℝ)) (Y : List ℝ)
    (k : ℕ) : (build m X Y k 0).SSXac.length = m.SSXac.length + k := by
  unfold build
  exact (buildLoop_counts k _).2.2.2.2.2.2.1

end Lemmas

section Theorems

/-- **C2.** If the requested LV count exceeds the fitted dimensionality
(`A > Am`), `project` fails with the descriptive reason the source uses
(`'Too many LV'`), returns no result sequences, and does not clamp: the
returned buffer equals the input unchanged (the early return happens
before the in-place centering), and `project` never writes any model
attribute on any path. -/
theorem C2_project_too_many_LV (m : Model) (x : List ℝ) (A : ℕ)
    (h : m.Am < A) :
    project m x A = (Except.error ("Too many LV"), x) := by
  simp [project, h]

/-- Witness for C2 at a concrete input: a fresh model has `Am = 0`, so
requesting one LV fails and leaves the buffer `[1]` unchanged. -/
theorem C2_project_too_many_LV_witness :
    plsInit.Am < 1 ∧
    project plsInit [(1 : ℝ)] 1 = (Except.error ("Too many LV"), [(1 : ℝ)]) :=
  ⟨by decide, C2_project_too_many_LV plsInit [(1 : ℝ)] 1 (by decide)⟩

/-- **C3.** `build` on a fresh model with `targetA = k ≥ 1` and
`targetSSX = 0` terminates after extracting exactly `k` LVs: `Am = k` and
each of the ten per-LV arrays has exactly `k` entries. -/
theorem C3_build_targetA_counts (X : List (List ℝ)) (Y : List ℝ) (k : ℕ)
    (hk : 1 ≤ k) :
    (build plsInit X Y k 0).Am = k ∧
    (build plsInit X Y k 0).t.length = k ∧
    (build plsInit X Y k 0).p.length = k ∧
    (build plsInit X Y k 0).w.length = k ∧
    (build plsInit X Y k 0).c.length = k ∧
    (build plsInit X Y k 0).SSXex.length = k ∧
    (build plsInit X Y k 0).SSXac.length = k ∧
    (build plsInit X Y k 0).SSYex.length = k ∧
    (build plsInit X Y k 0).SSYac.length = k ∧
    (build plsInit X Y k 0).SDEC.length = k ∧
    (build plsInit X Y k 0).dmodx.length = k := by
  unfold build
  obtain ⟨h1, h2, h3, h4, h5, h6, h7, h8, h9, h10, h11⟩ := buildLoop_counts k
    { Xc := (centerMat X).1, Yc := (centerVec Y).1,
      SSX0 := (computeSS (centerMat X).1 (centerVec Y).1).1,
      SSY0 := (computeSS (centerMat X).1 (centerVec Y).1).2.1,
      SSXold := (computeSS (centerMat X).1 (centerVec Y).1).1,
      SSYold := (computeSS (centerMat X).1 (centerVec Y).1).2.1,
      SSXacc := 0, SSYacc := 0,
      nobjL := X.length, nvarxL := ncols X, a := 0,
      m := { plsInit with X := some X, Y := some Y, nobj := X.length,
                          nvarx := ncols X, mux := (centerMat X).2,
                          muy := (centerVec Y).2 } }
  refine ⟨?_, ?_, ?_, ?_, ?_, ?_, ?_, ?_, ?_, ?_, ?_⟩ <;>
    simp_all [plsInit]

/-- Witness for C3 at `k = 2` on the concrete example data. -/
theorem C3_build_targetA_counts_witness :
    1 ≤ 2 ∧
    ((build plsInit Xex Yex 2 0).Am = 2 ∧
     (build plsInit Xex Yex 2 0).t.length = 2 ∧
     (build plsInit Xex Yex 2 0).p.length = 2 ∧
     (build plsInit Xex Yex 2 0).w.length = 2 ∧
     (build plsInit Xex Yex 2 0).c.length = 2 ∧
     (build plsInit Xex Yex 2 0).SSXex.length = 2 ∧
     (build plsInit Xex Yex 2 0).SSXac.length = 2 ∧
     (build plsInit Xex Yex 2 0).SSYex.length = 2 ∧
     (build plsInit Xex Yex 2 0).SSYac.length = 2 ∧
     (build plsInit Xex Yex 2 0).SDEC.length = 2 ∧
     (build plsInit Xex Yex 2 0).dmodx.length = 2) :=
  ⟨by decide, C3_build_targetA_counts Xex Yex 2 (by decide)⟩

/-- **C9.** The stored training matrices survive fitting and any number
of subsequent LOO validations unchanged: after `build` the model holds
the original uncentered `X` and `Y` (centering allocates fresh arrays and
deflation works on them), and every further `validateLOO` call leaves
them intact (each fold deflates independent copies). -/
theorem C9_training_data_preserved (X : List (List ℝ)) (Y : List ℝ)
    (k : ℕ) (tS : ℝ) (As : List ℕ) :
    (As.foldl validateLOO (build plsInit X Y k tS)).X = some X ∧
    (As.foldl validateLOO (build plsInit X Y k tS)).Y = some Y := by
  have hb := build_XY plsInit X Y k tS
  have hfold : ∀ (l : List ℕ) (m : Model), m.X = some X → m.Y = some Y →
      (l.foldl validateLOO m).X = some X ∧ (l.foldl validateLOO m).Y = some Y := by
    intro l
    induction l with
    | nil => intro m h1 h2; exact ⟨h1, h2⟩
    | cons A l ih =>
      intro m h1 h2
      have hp := validateLOO_preserves m A
      exact ih (validateLOO m A) (hp.2.1.trans h1) (hp.2.2.trans h2)
  exact hfold As _ hb.1 hb.2

/-- **C6 (failing run).** The documented invariant `Av ≤ Am` is not
enforced: fitting one LV and then calling `validateLOO 2` yields a model
with `Am = 1` but `Av = 2`. `validateLOO` stores `Av := A` without any
comparison against `Am`. -/
theorem C6_validateLOO_violates_Av_le_Am :
    (validateLOO (build plsInit X6 Y6 1 0) 2).Am = 1 ∧
    (validateLOO (build plsInit X6 Y6 1 0) 2).Av = 2 := by
  have hb := build_XY plsInit X6 Y6 1 0
  constructor
  · rw [(validateLOO_preserves (build plsInit X6 Y6 1 0) 2).1]
    exact build_Am plsInit X6 Y6 1
  · exact validateLOO_Av _ 2 X6 Y6 hb.1 hb.2

/-- **C10.** A successful `project` call mutates the caller's buffer in
place: on return the buffer no longer holds the original observation but
the `mux`-centered vector further deflated by `score_a * p_a` for each of
the `A` processed LVs (the embedding returns the buffer's final contents
as the second component). -/
theorem C10_project_mutates_caller_buffer (m : Model) (x : List ℝ) (A : ℕ)
    (h1 : 1 ≤ A) (h2 : A ≤ m.Am) :
    (project m x A).2 =
      (List.range A).foldl
        (fun xc a =>
          vsub xc (smul ((projT (project m x A).1).getD a 0) (m.p.getD a [])))
        (vsub x m.mux) := by
  have hnot : ¬ m.Am < A := not_lt.mpr h2
  simp only [project, if_neg hnot, projT]
  simpa using projectLoop_final m A 0 (vsub x m.mux)

/-- Witness for C10 on a concrete one-LV model and buffer. -/
theorem C10_project_mutates_caller_buffer_witness :
    1 ≤ 1 ∧ 1 ≤ mC10.Am ∧
    (project mC10 [(2 : ℝ)] 1).2 =
      (List.range 1).foldl
        (fun xc a =>
          vsub xc
            (smul ((projT (project mC10 [(2 : ℝ)] 1).1).getD a 0)
              (mC10.p.getD a [])))
        (vsub [(2 : ℝ)] mC10.mux) :=
  ⟨le_refl 1, by decide,
   C10_project_mutates_caller_buffer mC10 [(2 : ℝ)] 1 (le_refl 1) (by decide)⟩

/-- **C4.** `saveModel` followed by `loadModel` into a fresh object
reproduces every stored scalar and array of the serialized schema exactly
(`Am`, `Av`, `nobj`, `nvarx`, `mux`, `muy`, the ten per-LV artifacts for
each of the `Am` LVs in extraction order, and the three CV statistics for
each of the `Av` validated LVs): the reader consumes the stream in the
writer's fixed order. Only the unserialized training data is reset. -/
theorem C4_saveModel_loadModel_roundtrip (m : Model)
    (h1 : m.t.length = m.Am) (h2 : m.p.length = m.Am)
    (h3 : m.w.length = m.Am) (h4 : m.c.length = m.Am)
    (h5 : m.SSXex.length = m.Am) (h6 : m.SSXac.length = m.Am)
    (h7 : m.SSYex.length = m.Am) (h8 : m.SSYac.length = m.Am)
    (h9 : m.SDEC.length = m.Am) (h10 : m.dmodx.length = m.Am)
    (h11 : m.SSY.length = m.Av) (h12 : m.SDEP.length = m.Av)
    (h13 : m.Q2.length = m.Av) :
    loadModel plsInit (saveModel m) = some { m with X := none, Y := none } := by
  have hstream : saveModel m =
      NpVal.nat m.Am :: NpVal.nat m.Av :: NpVal.nat m.nobj ::
      NpVal.nat m.nvarx :: NpVal.vec m.mux :: NpVal.real m.muy ::
      (((List.range m.Am).map (lvBlock m)).flatten ++
        ((List.range m.Av).map (cvBlock m)).flatten) := by
    simp [saveModel]
  rw [hstream, loadModel_cons]
  rw [loadLVs_roundtrip m.Am m _ _ h1 h2 h3 h4 h5 h6 h7 h8 h9 h10]
  rw [Option.some_bind]
  rw [show ((List.range m.Av).map (cvBlock m)).flatten =
        ((List.range m.Av).map (cvBlock m)).flatten ++ [] from
      (List.append_nil _).symm]
  rw [loadCVs_roundtrip m.Av m _ _ h11 h12 h13]
  rw [Option.some_bind]
  simp [plsInit]

/-- Witness for C4: the round trip on the concrete fitted-and-validated
model state `mSer`. -/
theorem C4_saveModel_loadModel_roundtrip_witness :
    (mSer.t.length = mSer.Am ∧ mSer.p.length = mSer.Am ∧
     mSer.w.length = mSer.Am ∧ mSer.c.length = mSer.Am ∧
     mSer.SSXex.length = mSer.Am ∧ mSer.SSXac.length = mSer.Am ∧
     mSer.SSYex.length = mSer.Am ∧ mSer.SSYac.length = mSer.Am ∧
     mSer.SDEC.length = mSer.Am ∧ mSer.dmodx.length = mSer.Am ∧
     mSer.SSY.length = mSer.Av ∧ mSer.SDEP.length = mSer.Av ∧
     mSer.Q2.length = mSer.Av) ∧
    loadModel plsInit (saveModel mSer) = some { mSer with X := none, Y := none } :=
  ⟨⟨rfl, rfl, rfl, rfl, rfl, rfl, rfl, rfl, rfl, rfl, rfl, rfl, rfl⟩,
   C4_saveModel_loadModel_roundtrip mSer rfl rfl rfl rfl rfl rfl rfl rfl rfl
     rfl rfl rfl rfl⟩

/-- **C8.** Every weight vector stored by `build` is unit-normalized
(Euclidean norm 1), provided that LV's computed weight vector is nonzero
(on an entrywise-zero weight the source's division by `‖w‖ = 0` is the
NaN-producing degenerate case, embedded as the zero vector). -/
theorem C8_build_weight_unit_norm (X : List (List ℝ)) (Y : List ℝ)
    (k : ℕ) (tS : ℝ) (wv : List ℝ)
    (hmem : wv ∈ (build plsInit X Y k tS).w) (hnz : ∃ u ∈ wv, u ≠ 0) :
    Real.sqrt (dot wv wv) = 1 := by
  have hmem2 : wv ∈
      (buildLoop tS
        { Xc := (centerMat X).1, Yc := (centerVec Y).1,
          SSX0 := (computeSS (centerMat X).1 (centerVec Y).1).1,
          SSY0 := (computeSS (centerMat X).1 (centerVec Y).1).2.1,
          SSXold := (computeSS (centerMat X).1 (centerVec Y).1).1,
          SSYold := (computeSS (centerMat X).1 (centerVec Y).1).2.1,
          SSXacc := 0, SSYacc := 0,
          nobjL := X.length, nvarxL := ncols X, a := 0,
          m := { plsInit with X := some X, Y := some Y, nobj := X.length,
                              nvarx := ncols X, mux := (centerMat X).2,
                              muy := (centerVec Y).2 } } k).m.w := by
    simpa [build] using hmem
  exact buildLoop_w_unit tS k _ (by simp [plsInit]) wv hmem2 hnz

/-- Witness for C8: the single LV fitted on `X8`, `Y8` has weight vector
`[3/5, 4/5]`, which is nonzero and of unit norm. -/
theorem C8_build_weight_unit_norm_witness :
    (([(3 : ℝ)/5, 4/5] ∈ (build plsInit X8 Y8 1 0).w) ∧
     (∃ u ∈ [(3 : ℝ)/5, 4/5], u ≠ 0)) ∧
    Real.sqrt (dot [(3 : ℝ)/5, 4/5] [(3 : ℝ)/5, 4/5]) = 1 := by
  have hw : (build plsInit X8 Y8 1 0).w = [[(3 : ℝ)/5, 4/5]] := by
    simp [build, buildLoop, buildStep, extractLV, centerMat, centerVec,
      computeSS, deflateLV, mean, col, ncols, dot, vsub, smul, X8, Y8, plsInit,
      List.range_succ]
    norm_num [Real.sqrt_one]
  have hmem : [(3 : ℝ)/5, 4/5] ∈ (build plsInit X8 Y8 1 0).w := by
    rw [hw]; simp
  have hnz : ∃ u ∈ [(3 : ℝ)/5, 4/5], u ≠ 0 := ⟨3/5, by simp, by norm_num⟩
  exact ⟨⟨hmem, hnz⟩, C8_build_weight_unit_norm X8 Y8 1 0 _ hmem hnz⟩

/-- **C7 (counterexample).** On the zero-variance response `Y7 = [5, 5]`
`build` performs no degeneracy check and reports no failure: it completes
normally (`Am = 1`), divides by `Y·Y = 0`, and stores the resulting
degenerate weight vector (entrywise zero in the embedding, where float64
would store NaN) in the weight array. -/
theorem C7_build_zero_variance_counterexample :
    (build plsInit X7 Y7 1 0).Am = 1 ∧
    (build plsInit X7 Y7 1 0).w = [[0, 0]] := by
  constructor
  · simpa using build_Am plsInit X7 Y7 1
  · simp [build, buildLoop, buildStep, extractLV, centerMat, centerVec,
      computeSS, deflateLV, mean, col, ncols, dot, vsub, smul, X7, Y7, plsInit,
      List.range_succ]

/-- **C7 (amended).** `build` never detects a zero-variance response: on
any constant `Y` it runs to completion (`Am = k`), dividing by `Y·Y = 0`
in every extraction, and the degenerate weight vectors (entrywise zero in
the embedding; NaN in float64) propagate into the stored weight arrays of
every LV. No failure outcome exists on any path of `build`. -/
theorem C7_build_zero_variance_degenerates (X : List (List ℝ)) (Y : List ℝ)
    (y0 : ℝ) (hY : ∀ y ∈ Y, y = y0) (k : ℕ) (hk : 1 ≤ k) :
    (build plsInit X Y k 0).Am = k ∧
    ∀ wv ∈ (build plsInit X Y k 0).w, ∀ u ∈ wv, u = 0 := by
  constructor
  · simpa using build_Am plsInit X Y k
  · intro wv hmem
    have hmem2 : wv ∈
        (buildLoop 0
          { Xc := (centerMat X).1, Yc := (centerVec Y).1,
            SSX0 := (computeSS (centerMat X).1 (centerVec Y).1).1,
            SSY0 := (computeSS (centerMat X).1 (centerVec Y).1).2.1,
            SSXold := (computeSS (centerMat X).1 (centerVec Y).1).1,
            SSYold := (computeSS (centerMat X).1 (centerVec Y).1).2.1,
            SSXacc := 0, SSYacc := 0,
            nobjL := X.length, nvarxL := ncols X, a := 0,
            m := { plsInit with X := some X, Y := some Y, nobj := X.length,
                                nvarx := ncols X, mux := (centerMat X).2,
                                muy := (centerVec Y).2 } } k).m.w := by
      simpa [build] using hmem
    exact buildLoop_degenerate 0 k _ (centerVec_const Y y0 hY)
      (by simp [plsInit]) wv hmem2

/-- Witness for the amended C7 on the concrete constant response `Y7`. -/
theorem C7_build_zero_variance_degenerates_witness :
    ((∀ y ∈ Y7, y = 5) ∧ 1 ≤ 1) ∧
    ((build plsInit X7 Y7 1 0).Am = 1 ∧
     ∀ wv ∈ (build plsInit X7 Y7 1 0).w, ∀ u ∈ wv, u = 0) :=
  ⟨⟨by intro y hy; simp [Y7] at hy; exact hy, le_refl 1⟩,
   C7_build_zero_variance_degenerates X7 Y7 5
     (by intro y hy; simp [Y7] at hy; exact hy) 1 (le_refl 1)⟩

/-- **C5.** For a rectangular training matrix, the accumulated explained
X-variance list `SSXac` of any fitted model is non-decreasing in the LV
index: every per-LV `SSXex` is non-negative, because deflating X by the
rank-one reconstruction `t·pᵀ` never increases its sum of squares. -/
theorem C5_SSXac_monotone (X : List (List ℝ)) (Y : List ℝ) (k : ℕ)
    (tS : ℝ) (hrect : RectSelf X) (i : ℕ)
    (hi : i + 1 < (build plsInit X Y k tS).SSXac.length) :
    (build plsInit X Y k tS).SSXac.getD i 0 ≤
      (build plsInit X Y k tS).SSXac.getD (i + 1) 0 := by
  have hch : List.Chain' (fun a b => a ≤ b) (build plsInit X Y k tS).SSXac := by
    have h2 : (build plsInit X Y k tS).SSXac =
        (buildLoop tS
          { Xc := (centerMat X).1, Yc := (centerVec Y).1,
            SSX0 := (computeSS (centerMat X).1 (centerVec Y).1).1,
            SSY0 := (computeSS (centerMat X).1 (centerVec Y).1).2.1,
            SSXold := (computeSS (centerMat X).1 (centerVec Y).1).1,
            SSYold := (computeSS (centerMat X).1 (centerVec Y).1).2.1,
            SSXacc := 0, SSYacc := 0,
            nobjL := X.length, nvarxL := ncols X, a := 0,
            m := { plsInit with X := some X, Y := some Y, nobj := X.length,
                                nvarx := ncols X, mux := (centerMat X).2,
                                muy := (centerVec Y).2 } } k).m.SSXac := by
      simp [build]
    rw [h2]
    apply buildLoop_SSXac_chain
    · exact rect_centerMat X hrect
    · rfl
    · exact SSXof_nonneg _
    · simp [plsInit]
    · simp [plsInit]
  rw [List.chain'_iff_get] at hch
  have hgi := hch i (by omega)
  have e1 := List.getD_eq_getElem (build plsInit X Y k tS).SSXac 0
    (show i < (build plsInit X Y k tS).SSXac.length by omega)
  have e2 := List.getD_eq_getElem (build plsInit X Y k tS).SSXac 0 hi
  rw [e1, e2]
  simpa [List.get_eq_getElem] using hgi

/-- Witness for C5 on the two-LV example data. -/
theorem C5_SSXac_monotone_witness :
    RectSelf Xex ∧ 0 + 1 < (build plsInit Xex Yex 2 0).SSXac.length ∧
    (build plsInit Xex Yex 2 0).SSXac.getD 0 0 ≤
      (build plsInit Xex Yex 2 0).SSXac.getD 1 0 := by
  have hrect : RectSelf Xex := by
    intro r hr
    rw [show Xex = [[(1 : ℝ), 1], [0, -2], [-1, 1]] from rfl, List.mem_cons,
      List.mem_cons, List.mem_singleton] at hr
    rcases hr with rfl | rfl | rfl <;> simp [Xex, ncols]
  have hlen : (build plsInit Xex Yex 2 0).SSXac.length = 2 := by
    rw [build_SSXac_length]
    simp [plsInit]
  exact ⟨hrect, by rw [hlen]; omega,
    C5_SSXac_monotone Xex Yex 2 0 hrect 0 (by rw [hlen]; omega)⟩

set_option maxHeartbeats 2000000 in
/-- **C1 (failing run).** `project` does not return cumulative
predictions. On the two-LV model fitted from `Xex`, `Yex`, projecting the
first training row with `A = 2` returns `y = [175/43, 40/43]` with scores
`t = [7/5, 25/43]`, inner relations `c = [125/43, 8/5]` and `muy = 0`:
the second entry is `muy + t_2 c_2` alone, whereas the claimed cumulative
value `muy + t_1 c_1 + t_2 c_2 = 5` differs (`project` writes
`y[a] += t[a]*c[a]` into a fresh zero array, unlike `getLOO`, which
carries `y[a] = y[a-1]`; the docstring promises predictions "using
growing number of LV"). -/
theorem C1_project_y_not_cumulative :
    projY (project (build plsInit Xex Yex 2 0) [(1 : ℝ), 1] 2).1 =
      [(175 : ℝ)/43, 40/43] ∧
    projT (project (build plsInit Xex Yex 2 0) [(1 : ℝ), 1] 2).1 =
      [(7 : ℝ)/5, 25/43] ∧
    (build plsInit Xex Yex 2 0).c = [(125 : ℝ)/43, 8/5] ∧
    (build plsInit Xex Yex 2 0).muy = 0 ∧
    (40 : ℝ)/43 ≠ 0 + (7/5) * (125/43) + (25/43) * (8/5) := by
  have hsq1 : Real.sqrt ((25 : ℝ)/361) = 5/19 := by
    rw [show (25 : ℝ)/361 = (5/19) ^ 2 by norm_num]
    exact Real.sqrt_sq (by norm_num)
  have hsq2 : Real.sqrt ((25 : ℝ)/64) = 5/8 := by
    rw [show (25 : ℝ)/64 = (5/8) ^ 2 by norm_num]
    exact Real.sqrt_sq (by norm_num)
  have hw : (build plsInit Xex Yex 2 0).w = [[(4 : ℝ)/5, 3/5], [3/5, -4/5]] := by
    norm_num [build, buildLoop, buildStep, extractLV, centerMat, centerVec,
      computeSS, deflateLV, mean, col, ncols, dot, vsub, smul, Xex, Yex,
      plsInit, List.range_succ, hsq1, hsq2]
  have hp : (build plsInit Xex Yex 2 0).p = [[(20 : ℝ)/43, 45/43], [3/5, -4/5]] := by
    norm_num [build, buildLoop, buildStep, extractLV, centerMat, centerVec,
      computeSS, deflateLV, mean, col, ncols, dot, vsub, smul, Xex, Yex,
      plsInit, List.range_succ, hsq1, hsq2]
  have hc : (build plsInit Xex Yex 2 0).c = [(125 : ℝ)/43, 8/5] := by
    norm_num [build, buildLoop, buildStep, extractLV, centerMat, centerVec,
      computeSS, deflateLV, mean, col, ncols, dot, vsub, smul, Xex, Yex,
      plsInit, List.range_succ, hsq1, hsq2]
  have hmux : (build plsInit Xex Yex 2 0).mux = [0, 0] := by
    norm_num [build, buildLoop, buildStep, centerMat, centerVec, mean, col,
      ncols, Xex, Yex, plsInit, List.range_succ]
  have hmuy : (build plsInit Xex Yex 2 0).muy = 0 := by
    norm_num [build, buildLoop, buildStep, centerVec, mean, Xex, Yex, plsInit]
  have hAm : (build plsInit Xex Yex 2 0).Am = 2 := by
    simpa using build_Am plsInit Xex Yex 2
  have hy : projY (project (build plsInit Xex Yex 2 0) [(1 : ℝ), 1] 2).1 =
      [(175 : ℝ)/43, 40/43] := by
    norm_num [project, projY, projectLoop, hw, hp, hc, hmux, hmuy, hAm,
      dot, vsub, smul]
  have ht : projT (project (build plsInit Xex Yex 2 0) [(1 : ℝ), 1] 2).1 =
      [(7 : ℝ)/5, 25/43] := by
    norm_num [project, projT, projectLoop, hw, hp, hc, hmux, hmuy, hAm,
      dot, vsub, smul]
  exact ⟨hy, ht, hc, hmuy, by norm_num⟩

end Theorems

end PLS
